import Mathlib

/-
Verification development for the BTU scheduler daemon.

The Rust sources are shallowly embedded: Rust `String`/`&str` values are
modelled as `List Char`, machine integers as `Nat`/`Int`, fallible calls as
`Except`/`Option`, and Redis state as explicit Lean structures.  Functions
keep the names of the Rust items they embed wherever Lean allows it.
-/

namespace BTU

/-- Strings of the Rust program are modelled as lists of characters. -/
abbrev Str := List Char

/-- Coerces a Lean string literal into the `List Char` model. -/
def strChars (s : String) : Str := s.data

/-- Models Rust `char::is_whitespace` for the ASCII whitespace that can occur
in cron expressions. -/
def isWsChar (c : Char) : Bool := c = ' ' || c = '\t' || c = '\n' || c = '\r'

/-- Accumulator worker for `splitWs`: collects the current token in reverse. -/
def splitWsAux : List Char → List Char → List Str
  | [], acc => if acc.isEmpty then [] else [acc.reverse]
  | c :: rest, acc =>
    if isWsChar c then
      if acc.isEmpty then splitWsAux rest []
      else acc.reverse :: splitWsAux rest []
    else splitWsAux rest (c :: acc)

/-- Models Rust `str::split_whitespace`: splits on runs of whitespace and
never yields empty tokens. -/
def splitWs (l : Str) : List Str := splitWsAux l []

/-- Models Rust `str::trim` on the left side. -/
def trimLeft (l : Str) : Str := l.dropWhile isWsChar

/-- Models Rust `str::trim` on the right side. -/
def trimRight (l : Str) : Str := (l.reverse.dropWhile isWsChar).reverse

/-- Models Rust `str::trim`. -/
def trim (l : Str) : Str := trimRight (trimLeft l)

theorem splitWsAux_allWs (m : Str) (acc : List Char)
    (hm : ∀ c ∈ m, isWsChar c = true) :
    splitWsAux m acc = if acc.isEmpty then [] else [acc.reverse] := by
  induction m generalizing acc with
  | nil => rfl
  | cons w m ih =>
    have hw : isWsChar w = true := hm w (List.mem_cons_self _ _)
    have hm' : ∀ c ∈ m, isWsChar c = true := fun c hc => hm c (List.mem_cons_of_mem _ hc)
    by_cases hacc : acc.isEmpty
    · simp [splitWsAux, hw, hacc, ih [] hm']
    · simp [splitWsAux, hw, hacc, ih [] hm']

theorem splitWsAux_append_allWs (m : Str) (hm : ∀ c ∈ m, isWsChar c = true)
    (l : Str) (acc : List Char) :
    splitWsAux (l ++ m) acc = splitWsAux l acc := by
  induction l generalizing acc with
  | nil => simpa [splitWsAux] using splitWsAux_allWs m acc hm
  | cons c l ih =>
    by_cases hc : isWsChar c
    · by_cases hacc : acc.isEmpty <;> simp [splitWsAux, hc, hacc, ih]
    · simp [splitWsAux, hc, ih]

theorem splitWsAux_mid_ws (w : Char) (hw : isWsChar w = true)
    (l m : Str) (acc : List Char) :
    splitWsAux (l ++ w :: m) acc = splitWsAux l acc ++ splitWsAux m [] := by
  induction l generalizing acc with
  | nil =>
    by_cases hacc : acc.isEmpty <;> simp [splitWsAux, hw, hacc]
  | cons c l ih =>
    by_cases hc : isWsChar c
    · by_cases hacc : acc.isEmpty <;> simp [splitWsAux, hc, hacc, ih]
    · simp [splitWsAux, hc, ih]

theorem splitWs_trimLeft (l : Str) : splitWs (trimLeft l) = splitWs l := by
  induction l with
  | nil => rfl
  | cons c l ih =>
    by_cases hc : isWsChar c
    · simpa [trimLeft, splitWs, splitWsAux, hc, List.dropWhile_cons, trimLeft] using ih
    · simp [trimLeft, List.dropWhile_cons, hc]

theorem splitWs_trimRight (l : Str) : splitWs (trimRight l) = splitWs l := by
  have hdecomp : l = trimRight l ++ (l.reverse.takeWhile isWsChar).reverse := by
    have h := List.takeWhile_append_dropWhile (p := isWsChar) (l := l.reverse)
    calc l = l.reverse.reverse := (List.reverse_reverse l).symm
    _ = (l.reverse.takeWhile isWsChar ++ l.reverse.dropWhile isWsChar).reverse := by rw [h]
    _ = trimRight l ++ (l.reverse.takeWhile isWsChar).reverse := by
          rw [List.reverse_append]; rfl
  have hws : ∀ c ∈ (l.reverse.takeWhile isWsChar).reverse, isWsChar c = true := by
    intro c hc
    rw [List.mem_reverse] at hc
    exact List.mem_takeWhile_imp hc
  conv_rhs => rw [hdecomp]
  unfold splitWs
  rw [splitWsAux_append_allWs _ hws]

theorem splitWs_trim (l : Str) : splitWs (trim l) = splitWs l := by
  unfold trim
  rw [splitWs_trimRight, splitWs_trimLeft]

/-- Splitting the padded 5-field expression: a leading token `0`, the original
fields, and a trailing token `*`. -/
theorem splitWs_pad (E : Str) :
    splitWs ('0' :: ' ' :: (E ++ ' ' :: '*' :: [])) =
      ['0'] :: splitWs E ++ [['*']] := by
  show splitWsAux ('0' :: ' ' :: (E ++ ' ' :: '*' :: [])) [] = _
  rw [show splitWsAux ('0' :: ' ' :: (E ++ ' ' :: '*' :: [])) []
        = splitWsAux (' ' :: (E ++ ' ' :: '*' :: [])) ['0'] from rfl]
  rw [show splitWsAux (' ' :: (E ++ ' ' :: '*' :: [])) ['0']
        = ['0'] :: splitWsAux (E ++ ' ' :: '*' :: []) [] from rfl]
  rw [splitWsAux_mid_ws ' ' rfl E ('*' :: []) []]
  rfl

/-- Error type of the cron projector, from `errors.rs` / the library error
module: wrong field count or an unparseable expression. -/
inductive CronError
  | wrongQtyOfElements (found : Nat)
  | invalidExpression
deriving DecidableEq, Repr

/-- Embeds `cron_str_to_cron_str7` from `btu_cron.rs`: trims, counts
whitespace-separated fields, and pads 5- and 6-field expressions to 7 fields
by string formatting on the original (untrimmed) input. -/
def cron_str_to_cron_str7 (s : Str) : Except CronError Str :=
  match (splitWs (trim s)).length with
  | 5 => .ok ('0' :: ' ' :: (s ++ ' ' :: '*' :: []))
  | 6 => .ok ('0' :: ' ' :: s)
  | 7 => .ok s
  | n => .error (.wrongQtyOfElements n)

/-- Models Rust `str::split` with a single-character separator: keeps empty
pieces, always yields at least one piece. -/
def splitOnChar (sep : Char) : List Char → List Str
  | [] => [[]]
  | c :: rest =>
    if c = sep then [] :: splitOnChar sep rest
    else
      match splitOnChar sep rest with
      | h :: t => (c :: h) :: t
      | [] => [[c]]

/-- Embeds the private struct `CronStruct` of `btu_cron.rs`: the seven cron
fields, each `none` when the textual field was the wildcard. -/
structure CronStruct where
  second : Option Str
  minute : Option Str
  hour : Option Str
  day_of_month : Option Str
  month : Option Str
  day_of_week : Option Str
  year : Option Str
deriving DecidableEq, Repr

/-- Embeds `nonwildcard_or_none` from `CronStruct::from_str`. -/
def nonwildcard_or_none (element : Str) : Option Str :=
  if element = strChars "*" then none else some element

/-- Result of `CronStruct::from_str`: the Rust code indexes
`vector_cron7[0] .. vector_cron7[6]`, which panics when `split(" ")` yields
fewer than seven pieces. -/
inductive FromStrRes
  | ok (c : CronStruct)
  | err (e : CronError)
  | panicIndex
deriving DecidableEq, Repr

/-- Builds the `CronStruct` from the pieces of `split(" ")`, modelling the
panicking index accesses with `List.get?`. -/
def cronStructOfPieces (v : List Str) : FromStrRes :=
  match v.get? 0, v.get? 1, v.get? 2, v.get? 3, v.get? 4, v.get? 5, v.get? 6 with
  | some f0, some f1, some f2, some f3, some f4, some f5, some f6 =>
    .ok { second := nonwildcard_or_none f0
          minute := nonwildcard_or_none f1
          hour := nonwildcard_or_none f2
          day_of_month := nonwildcard_or_none f3
          month := nonwildcard_or_none f4
          day_of_week := nonwildcard_or_none f5
          year := nonwildcard_or_none f6 }
  | _, _, _, _, _, _, _ => .panicIndex

/-- Embeds `CronStruct::from_str`: normalize to 7 fields via
`cron_str_to_cron_str7`, then split on single spaces and read fields 0-6. -/
def CronStruct.from_str (s : Str) : FromStrRes :=
  match cron_str_to_cron_str7 s with
  | .error e => .err e
  | .ok cron7 => cronStructOfPieces (splitOnChar ' ' cron7)

/-- Embeds `CronStruct::to_string`: the seven fields joined by single spaces,
each wildcard printed as `*`. -/
def CronStruct.to_string (c : CronStruct) : Str :=
  let w := strChars "*"
  (c.second.getD w) ++ ' ' :: (c.minute.getD w) ++ ' ' :: (c.hour.getD w) ++
    ' ' :: (c.day_of_month.getD w) ++ ' ' :: (c.month.getD w) ++
    ' ' :: (c.day_of_week.getD w) ++ ' ' :: (c.year.getD w)

/-- The `from_str` embedding factors through `cron_str_to_cron_str7`: the rest
of the projector depends on the input only through the normalized string. -/
theorem CronStruct.from_str_congr (s₁ s₂ : Str)
    (h : cron_str_to_cron_str7 s₁ = cron_str_to_cron_str7 s₂) :
    CronStruct.from_str s₁ = CronStruct.from_str s₂ := by
  unfold CronStruct.from_str
  rw [h]

/-- Decimal digit characters. -/
def digitChar (n : Nat) : Char :=
  match n with
  | 0 => '0' | 1 => '1' | 2 => '2' | 3 => '3' | 4 => '4'
  | 5 => '5' | 6 => '6' | 7 => '7' | 8 => '8' | 9 => '9'
  | _ => '?'

/-- Tests for a decimal digit character. -/
def isDigitChar (c : Char) : Bool := 48 ≤ c.toNat && c.toNat ≤ 57

/-- Numeric value of a digit character. -/
def digitVal (c : Char) : Nat := c.toNat - 48

/-- Fuelled worker producing the decimal digits of a natural number,
most-significant first (fuel keeps the recursion structural). -/
def natDigitsAux : Nat → Nat → List Char
  | 0, _ => []
  | fuel + 1, n =>
    if n < 10 then [digitChar n]
    else natDigitsAux fuel (n / 10) ++ [digitChar (n % 10)]

/-- Decimal rendering of a natural number, as Rust `Display` for integers. -/
def natDigits (n : Nat) : List Char := natDigitsAux (n + 1) n

/-- Decimal rendering of an `i64` value, as Rust `Display`. -/
def renderInt (i : Int) : Str :=
  if i < 0 then '-' :: natDigits i.natAbs else natDigits i.natAbs

/-- Left-fold worker of the decimal parser. -/
def parseNatAux : List Char → Nat → Option Nat
  | [], acc => some acc
  | c :: rest, acc =>
    if isDigitChar c then parseNatAux rest (acc * 10 + digitVal c) else none

/-- Models Rust `str::parse::<u64>` on the digit strings this program
produces: fails on the empty string or any non-digit. -/
def parseNatStr (l : Str) : Option Nat :=
  match l with
  | [] => none
  | _ => parseNatAux l 0

/-- Models Rust `str::parse::<i64>` restricted to optional leading minus. -/
def parseIntStr (l : Str) : Option Int :=
  match l with
  | [] => none
  | c :: rest =>
    if c = '-' then (parseNatStr rest).map (fun n => -(n : Int))
    else (parseNatStr (c :: rest)).map (fun n => (n : Int))

theorem digitChar_spec (d : Nat) (hd : d < 10) :
    isDigitChar (digitChar d) = true ∧ digitVal (digitChar d) = d := by
  interval_cases d <;> exact ⟨rfl, rfl⟩

theorem digitChar_ne_pipe (d : Nat) (hd : d < 10) : digitChar d ≠ '|' := by
  interval_cases d <;> decide

theorem digitChar_ne_minus (d : Nat) (hd : d < 10) : digitChar d ≠ '-' := by
  interval_cases d <;> decide

theorem parseNatAux_append (l₁ l₂ : List Char) (a : Nat) :
    parseNatAux (l₁ ++ l₂) a =
      match parseNatAux l₁ a with
      | some b => parseNatAux l₂ b
      | none => none := by
  induction l₁ generalizing a with
  | nil => rfl
  | cons c l ih =>
    by_cases hc : isDigitChar c
    · simp [parseNatAux, hc, ih]
    · simp [parseNatAux, hc]

theorem natDigitsAux_parse (fuel n : Nat) (hn : n < fuel) (a : Nat) :
    parseNatAux (natDigitsAux fuel n) a =
      some (a * 10 ^ (natDigitsAux fuel n).length + n) := by
  induction fuel generalizing n a with
  | zero => omega
  | succ fuel ih =>
    by_cases h10 : n < 10
    · obtain ⟨hdig, hval⟩ := digitChar_spec n h10
      simp [natDigitsAux, h10, parseNatAux, hdig, hval]
    · have hpos : 0 < n := by omega
      have hdiv : n / 10 < n := Nat.div_lt_self hpos (by omega)
      have hfuel : n / 10 < fuel := by omega
      rw [show natDigitsAux (fuel + 1) n
            = natDigitsAux fuel (n / 10) ++ [digitChar (n % 10)] by
          simp [natDigitsAux, h10]]
      rw [parseNatAux_append, ih (n / 10) hfuel a]
      obtain ⟨hdig, hval⟩ := digitChar_spec (n % 10) (Nat.mod_lt n (by omega))
      simp only [parseNatAux, hdig, if_true, hval, List.length_append,
        List.length_singleton]
      congr 1
      have hrw : (a * 10 ^ (natDigitsAux fuel (n / 10)).length + n / 10) * 10
            + n % 10
          = a * 10 ^ ((natDigitsAux fuel (n / 10)).length + 1)
            + (n / 10 * 10 + n % 10) := by ring
      rw [hrw]
      omega

theorem parseNatStr_natDigits (n : Nat) : parseNatStr (natDigits n) = some n := by
  have hne : natDigits n ≠ [] := by
    unfold natDigits natDigitsAux
    by_cases h10 : n < 10 <;> simp [h10]
  have h := natDigitsAux_parse (n + 1) n (Nat.lt_succ_self n) 0
  rcases hds : natDigits n with _ | ⟨c, rest⟩
  · exact absurd hds hne
  · have hstep : parseNatStr (c :: rest) = parseNatAux (c :: rest) 0 := rfl
    rw [hstep, ← hds]
    show parseNatAux (natDigitsAux (n + 1) n) 0 = some n
    rw [h]
    simp

theorem natDigits_all_digits (n : Nat) : ∀ c ∈ natDigits n, isDigitChar c = true := by
  unfold natDigits
  generalize hfuel : n + 1 = fuel
  have hn : n < fuel := by omega
  clear hfuel
  induction fuel generalizing n with
  | zero => omega
  | succ fuel ih =>
    intro c hc
    by_cases h10 : n < 10
    · simp [natDigitsAux, h10] at hc
      subst hc
      exact (digitChar_spec n h10).1
    · simp only [natDigitsAux, h10, if_neg, not_false_iff, List.mem_append,
        List.mem_singleton] at hc
      rcases hc with hc | hc
      · have hpos : 0 < n := by omega
        have : n / 10 < fuel := by
          have := Nat.div_lt_self hpos (show 1 < 10 by omega)
          omega
        exact ih (n / 10) this c hc
      · subst hc
        exact (digitChar_spec (n % 10) (Nat.mod_lt n (by omega))).1

theorem digit_ne_pipe {c : Char} (h : isDigitChar c = true) : c ≠ '|' := by
  intro hc
  subst hc
  simp [isDigitChar] at h

theorem digit_ne_minus {c : Char} (h : isDigitChar c = true) : c ≠ '-' := by
  intro hc
  subst hc
  simp [isDigitChar] at h

theorem parseIntStr_renderInt (i : Int) : parseIntStr (renderInt i) = some i := by
  by_cases hneg : i < 0
  · rw [renderInt, if_pos hneg]
    show (parseNatStr (natDigits i.natAbs)).map (fun n => -(n : Int)) = some i
    rw [parseNatStr_natDigits]
    show some (-(i.natAbs : Int)) = some i
    congr 1
    omega
  · rw [renderInt, if_neg hneg]
    have hne : natDigits i.natAbs ≠ [] := by
      unfold natDigits natDigitsAux
      by_cases h10 : i.natAbs < 10 <;> simp [h10]
    match hds : natDigits i.natAbs with
    | [] => exact absurd hds hne
    | c :: rest =>
      have hcm : c ≠ '-' :=
        digit_ne_minus (natDigits_all_digits i.natAbs c (hds ▸ List.mem_cons_self _ _))
      rw [parseIntStr, if_neg hcm, ← hds, parseNatStr_natDigits]
      show some ((i.natAbs : Int)) = some i
      congr 1
      omega

/-- Lower-cases a string, as the case-insensitive name matching of the `cron`
crate's field parser. -/
def lowerChars (l : Str) : Str := l.map Char.toLower

/-- Day-of-week names of the `cron` crate, with ordinals Sun=1 .. Sat=7. -/
def dowNames : List (Str × Nat) :=
  [(strChars "sun", 1), (strChars "mon", 2), (strChars "tue", 3),
   (strChars "wed", 4), (strChars "thu", 5), (strChars "fri", 6),
   (strChars "sat", 7)]

/-- Month names of the `cron` crate, with ordinals Jan=1 .. Dec=12. -/
def monthNames : List (Str × Nat) :=
  [(strChars "jan", 1), (strChars "feb", 2), (strChars "mar", 3),
   (strChars "apr", 4), (strChars "may", 5), (strChars "jun", 6),
   (strChars "jul", 7), (strChars "aug", 8), (strChars "sep", 9),
   (strChars "oct", 10), (strChars "nov", 11), (strChars "dec", 12)]

/-- Models the `cron` crate's ordinal resolution inside one field: a decimal
number, or a case-insensitive three-letter name from the table. -/
def parseOrdinal (names : List (Str × Nat)) (tok : Str) : Option Nat :=
  if tok.all isDigitChar then parseNatStr tok
  else (names.find? (fun p => p.1 = lowerChars tok)).map Prod.snd

/-- Closed integer interval as a list. -/
def rangeList (a b : Nat) : List Nat := (List.range (b + 1 - a)).map (· + a)

/-- Models one unstepped cron item as the pair of its bounds: a wildcard, a
single ordinal, or an ordinal range, bounds-checked against the field's
domain.  The Bool records whether the item was a lone ordinal. -/
def parseBase (names : List (Str × Nat)) (lo hi : Nat) (tok : Str) :
    Option (Nat × Nat × Bool) :=
  if tok = strChars "*" then some (lo, hi, false)
  else
    match splitOnChar '-' tok with
    | [t] =>
      (parseOrdinal names t).bind fun v =>
        if lo ≤ v ∧ v ≤ hi then some (v, v, true) else none
    | [t1, t2] =>
      (parseOrdinal names t1).bind fun a =>
        (parseOrdinal names t2).bind fun b =>
          if lo ≤ a ∧ a ≤ b ∧ b ≤ hi then some (a, b, false) else none
    | _ => none

/-- Models one comma-separated item of a cron field, including the `/step`
syntax: a stepped item ranges from its start to the field's upper bound in
increments of the step. -/
def parseItem (names : List (Str × Nat)) (lo hi : Nat) (tok : Str) :
    Option (List Nat) :=
  match splitOnChar '/' tok with
  | [t] =>
    (parseBase names lo hi t).map fun b => rangeList b.1 b.2.1
  | [t, st] =>
    (if st.all isDigitChar then parseNatStr st else none).bind fun k =>
      if k = 0 then none
      else
        (parseBase names lo hi t).map fun b =>
          (rangeList b.1 (if b.2.2 then hi else b.2.1)).filter
            (fun x => (x - b.1) % k = 0)
  | _ => none

/-- Inserts into a sorted, duplicate-free list: the `cron` crate stores each
field as an ordered set. -/
def insertSorted (x : Nat) : List Nat → List Nat
  | [] => [x]
  | y :: rest =>
    if x < y then x :: y :: rest
    else if x = y then y :: rest
    else y :: insertSorted x rest

/-- Sorted, duplicate-free normalization of a list of ordinals. -/
def sortDedup (l : List Nat) : List Nat := l.foldr insertSorted []

/-- Models one whole cron field of the `cron` crate: wildcard, or a
comma-separated list of items. -/
def parseField (names : List (Str × Nat)) (lo hi : Nat) (tok : Str) :
    Option (List Nat) :=
  if tok = strChars "*" then some (rangeList lo hi)
  else
    ((splitOnChar ',' tok).foldr
      (fun it acc => (parseItem names lo hi it).bind fun l => acc.map (l ++ ·))
      (some [])).map sortDedup

/-- Models the `cron` crate's `Schedule`: the set of admitted ordinals for
each of the seven fields, each sorted and duplicate-free. -/
structure Sched where
  seconds : List Nat
  minutes : List Nat
  hours : List Nat
  daysOfMonth : List Nat
  months : List Nat
  daysOfWeek : List Nat
  years : List Nat
deriving DecidableEq, Repr

/-- Models `cron::Schedule::from_str` for the 7-field strings regenerated by
`CronStruct::to_string`, over the field grammar those strings use (wildcards,
numbers, names, ranges, comma lists).  Years outside 1970-2100 are not
representable, matching the crate's supported year range. -/
def scheduleFromStr (s : Str) : Option Sched :=
  match splitWs s with
  | [f0, f1, f2, f3, f4, f5, f6] =>
    (parseField [] 0 59 f0).bind fun se =>
    (parseField [] 0 59 f1).bind fun mi =>
    (parseField [] 0 23 f2).bind fun ho =>
    (parseField [] 1 31 f3).bind fun dm =>
    (parseField monthNames 1 12 f4).bind fun mo =>
    (parseField dowNames 1 7 f5).bind fun dw =>
    (parseField [] 1970 2100 f6).map fun yr =>
      { seconds := se, minutes := mi, hours := ho, daysOfMonth := dm,
        months := mo, daysOfWeek := dw, years := yr }
  | _ => none

/-- Civil calendar from days since 1970-01-01 (proleptic Gregorian), returning
(year, month, day). -/
def civilFromDays (z : Int) : Int × Nat × Nat :=
  let z' := z + 719468
  let era := z' / 146097
  let doe := (z' - era * 146097).toNat
  let yoe := (doe - doe / 1460 + doe / 36524 - doe / 146096) / 365
  let y := (yoe : Int) + era * 400
  let doy := doe - (365 * yoe + yoe / 4 - yoe / 100)
  let mp := (5 * doy + 2) / 153
  let d := doy - (153 * mp + 2) / 5 + 1
  let m := if mp < 10 then mp + 3 else mp - 9
  (if m ≤ 2 then y + 1 else y, m, d)

/-- Day of week with the `cron` crate's ordinals Sun=1 .. Sat=7
(1970-01-01 was a Thursday, ordinal 5). -/
def dayOfWeekOrd (z : Int) : Nat := ((z + 4) % 7).toNat + 1

/-- Does the calendar day `z` (days since epoch) match the schedule's month,
day-of-month, day-of-week and year constraints?  The `cron` crate requires
day-of-month and day-of-week to match simultaneously. -/
def matchesDay (sch : Sched) (z : Int) : Bool :=
  match civilFromDays z with
  | (y, m, d) =>
    decide (0 ≤ y) && sch.years.contains y.toNat && sch.months.contains m &&
      sch.daysOfMonth.contains d && sch.daysOfWeek.contains (dayOfWeekOrd z)

/-- All admitted second-of-day offsets of a schedule, ascending. -/
def timesOfDay (sch : Sched) : List Nat :=
  sch.hours.flatMap fun h =>
    sch.minutes.flatMap fun mi =>
      sch.seconds.map fun se => h * 3600 + mi * 60 + se

/-- First fire time on calendar day `z` that is strictly after `t`. -/
def firstInDayAfter (sch : Sched) (z : Int) (t : Int) : Option Int :=
  if matchesDay sch z then
    ((timesOfDay sch).find? (fun x => decide (t < z * 86400 + (x : Int)))).map
      (fun x => z * 86400 + (x : Int))
  else none

/-- Fuelled day-by-day search for the next fire time strictly after `t`. -/
def nextAfterAux (sch : Sched) (t : Int) : Nat → Int → Option Int
  | 0, _ => none
  | fuel + 1, z =>
    match firstInDayAfter sch z t with
    | some r => some r
    | none => nextAfterAux sch t fuel (z + 1)

/-- Models the strictly-after semantics of `cron::Schedule::after`: the next
fire time after `t`.  The fuel bounds the search by the crate's supported
year range (1970-2100 is below 48000 days). -/
def nextAfter (sch : Sched) (t : Int) : Option Int :=
  nextAfterAux sch t 48000 (t / 86400)

/-- Models `schedule.after(&t).take(n)`: the next `n` fire times, each search
resuming from the previous result. -/
def schedAfterTake (sch : Sched) (t : Int) : Nat → List Int
  | 0 => []
  | n + 1 =>
    match nextAfter sch t with
    | none => []
    | some r => r :: schedAfterTake sch r n

/-- Models the `chrono-tz` America/Los_Angeles DST table for 2019-2023: each
pair is the half-open UTC interval (in unix seconds) during which DST
(UTC-7) is in effect; outside them the zone is at UTC-8.  The instants are
the published second-Sunday-of-March / first-Sunday-of-November transitions. -/
def laDstIntervals : List (Int × Int) :=
  [(1552212000, 1572771600),
   (1583661600, 1604221200),
   (1615716000, 1636275600),
   (1647165600, 1667725200),
   (1678615200, 1699174800)]

/-- Is the UTC instant `u` inside a DST interval of America/Los_Angeles? -/
def laIsDst (u : Int) : Bool :=
  laDstIntervals.any fun p => decide (p.1 ≤ u) && decide (u < p.2)

/-- UTC offset (seconds) of America/Los_Angeles at the UTC instant `u`. -/
def laOffset (u : Int) : Int := if laIsDst u then -25200 else -28800

/-- Models `chrono::LocalResult` for a naive-local-to-zone conversion. -/
inductive LocalRes
  | nonexistent
  | single (u : Int)
  | ambiguous (u1 u2 : Int)
deriving DecidableEq, Repr

/-- Models `Tz::from_local_datetime` for America/Los_Angeles: a candidate
offset is valid when the zone's offset at the corresponding UTC instant is
that offset; zero, one, or two valid candidates yield nonexistent, single,
or ambiguous. -/
def laFromLocal (n : Int) : LocalRes :=
  let uDst := n + 25200
  let uStd := n + 28800
  match (if laOffset uDst = -25200 then [uDst] else []) ++
      (if laOffset uStd = -28800 then [uStd] else []) with
  | [] => .nonexistent
  | [u] => .single u
  | u1 :: u2 :: _ => .ambiguous u1 u2

/-- A time zone is modelled by its naive-local-to-UTC conversion. -/
structure TzModel where
  fromLocal : Int → LocalRes

/-- The America/Los_Angeles model. -/
def laTz : TzModel := ⟨laFromLocal⟩

/-- Outcome of `tz_cron_to_utc_datetimes`, separating the returned error from
the three `unwrap`/indexing panics the Rust code can hit. -/
inductive TzResult
  | ok (l : List Int)
  | invalidExpr
  | panicIndex
  | panicSchedule
  | panicLocal
deriving DecidableEq, Repr

/-- The reinterpretation loop of `tz_cron_to_utc_datetimes`: each naive UTC
instant's wall-clock is converted from the target zone back to UTC; any
nonexistent or ambiguous local time makes the Rust `unwrap` panic. -/
def mapLocal (tzm : TzModel) : List Int → Option (List Int)
  | [] => some []
  | t :: ts =>
    match tzm.fromLocal t with
    | .single u => (mapLocal tzm ts).map (u :: ·)
    | _ => none

/-- Embeds `tz_cron_to_utc_datetimes` from `btu_cron.rs`: parse into a
`CronStruct`, regenerate the 7-field string for `Schedule::from_str`
(whose failure the Rust code unwraps), then either pass the naive UTC
instants through verbatim (wildcard hour) or reinterpret each one's
wall-clock fields in the target zone.  `now` stands for `Utc::now()`, used
only when no anchor is supplied. -/
def tz_cron_to_utc_datetimes (tzm : TzModel) (now : Int) (s : Str)
    (from_utc_datetime : Option Int) (number_of_results : Nat) : TzResult :=
  match CronStruct.from_str s with
  | .err _ => .invalidExpr
  | .panicIndex => .panicIndex
  | .ok cs =>
    match scheduleFromStr cs.to_string with
    | none => .panicSchedule
    | some sched =>
      let anchor := from_utc_datetime.getD now
      if cs.hour.isNone then .ok (schedAfterTake sched anchor number_of_results)
      else
        match mapLocal tzm (schedAfterTake sched anchor number_of_results) with
        | some l => .ok l
        | none => .panicLocal

/-- C8: cron normalization is driven by the count of whitespace-separated
fields: a 5-field expression E yields "0 E *", a 6-field expression yields
"0 E", a 7-field expression passes through unchanged, and any other arity
fails with the invalid-cron error carrying the found count. -/
theorem c8_cron_str7_arity (s : Str) :
    ((splitWs (trim s)).length = 5 →
      cron_str_to_cron_str7 s = .ok ('0' :: ' ' :: (s ++ ' ' :: '*' :: []))) ∧
    ((splitWs (trim s)).length = 6 →
      cron_str_to_cron_str7 s = .ok ('0' :: ' ' :: s)) ∧
    ((splitWs (trim s)).length = 7 → cron_str_to_cron_str7 s = .ok s) ∧
    ((splitWs (trim s)).length ≠ 5 → (splitWs (trim s)).length ≠ 6 →
      (splitWs (trim s)).length ≠ 7 →
      cron_str_to_cron_str7 s =
        .error (.wrongQtyOfElements (splitWs (trim s)).length)) := by
  refine ⟨fun h => ?_, fun h => ?_, fun h => ?_, fun h5 h6 h7 => ?_⟩ <;>
    unfold cron_str_to_cron_str7
  · rw [h]
  · rw [h]
  · rw [h]
  · rcases hn : (splitWs (trim s)).length with _ | _ | _ | _ | _ | _ | _ | _ | k
    · rfl
    · rfl
    · rfl
    · rfl
    · rfl
    · exact absurd hn h5
    · exact absurd hn h6
    · exact absurd hn h7
    · rfl

/-- Witness for C8 at the concrete 5-field expression of all wildcards. -/
theorem c8_witness :
    (splitWs (trim (strChars "* * * * *"))).length = 5 ∧
    cron_str_to_cron_str7 (strChars "* * * * *") =
      .ok ('0' :: ' ' :: (strChars "* * * * *" ++ ' ' :: '*' :: [])) :=
  ⟨by decide, (c8_cron_str7_arity _).1 (by decide)⟩

/-- C9: projecting a 5-field expression E is the same as projecting its
padded 7-field form "0 E *", for every time zone model, every "now", every
anchor, and every result count; the projector depends on the input string
only through `cron_str_to_cron_str7`. -/
theorem c9_round_trip (tzm : TzModel) (now : Int) (E : Str)
    (from_utc : Option Int) (n : Nat)
    (h5 : (splitWs (trim E)).length = 5) :
    tz_cron_to_utc_datetimes tzm now E from_utc n =
      tz_cron_to_utc_datetimes tzm now ('0' :: ' ' :: (E ++ ' ' :: '*' :: []))
        from_utc n := by
  have hE : cron_str_to_cron_str7 E = .ok ('0' :: ' ' :: (E ++ ' ' :: '*' :: [])) := by
    unfold cron_str_to_cron_str7
    rw [h5]
  have h5' : (splitWs E).length = 5 := by
    rw [← splitWs_trim]
    exact h5
  have hlen : (splitWs (trim ('0' :: ' ' :: (E ++ ' ' :: '*' :: [])))).length = 7 := by
    rw [splitWs_trim, splitWs_pad]
    simp [h5']
  have hP : cron_str_to_cron_str7 ('0' :: ' ' :: (E ++ ' ' :: '*' :: []))
      = .ok ('0' :: ' ' :: (E ++ ' ' :: '*' :: [])) := by
    unfold cron_str_to_cron_str7
    rw [hlen]
  have hfs := CronStruct.from_str_congr E ('0' :: ' ' :: (E ++ ' ' :: '*' :: []))
    (hE.trans hP.symm)
  unfold tz_cron_to_utc_datetimes
  rw [hfs]

/-- Witness for C9 at the repository's own multi-day cron expression. -/
theorem c9_witness :
    (splitWs (trim (strChars "30 3 * * Sun-Wed,Sat"))).length = 5 ∧
    tz_cron_to_utc_datetimes laTz 0 (strChars "30 3 * * Sun-Wed,Sat")
        (some 1640390401) 1 =
      tz_cron_to_utc_datetimes laTz 0
        ('0' :: ' ' :: (strChars "30 3 * * Sun-Wed,Sat" ++ ' ' :: '*' :: []))
        (some 1640390401) 1 :=
  ⟨by decide, c9_round_trip laTz 0 _ (some 1640390401) 1 (by decide)⟩

/-- Counterexample for C6: on cron "30 3 * * Sun-Wed,Sat" in
America/Los_Angeles anchored at 2021-12-25T00:00:01Z (unix 1640390401), the
projector does NOT produce the claimed instants Dec 25, 26, 28, 29, 30 at
11:30:00Z (unix 1640431800, 1640518200, 1640691000, 1640777400, 1640863800):
the actual third instant is Monday Dec 27, not Dec 28. -/
theorem c6_counterexample :
    tz_cron_to_utc_datetimes laTz 0 (strChars "30 3 * * Sun-Wed,Sat")
        (some 1640390401) 5 ≠
      .ok [1640431800, 1640518200, 1640691000, 1640777400, 1640863800] := by
  decide

/-- C6 (amended): the first five projected UTC instants for cron
"30 3 * * Sun-Wed,Sat" in America/Los_Angeles anchored at
2021-12-25T00:00:01Z are Dec 25, 26, 27, 28, 29 at 11:30:00Z, and each one is
the naive UTC evaluation (03:30:00Z on those days) shifted by the
winter-offset reinterpretation (+8 hours). -/
theorem c6_projection_concrete :
    tz_cron_to_utc_datetimes laTz 0 (strChars "30 3 * * Sun-Wed,Sat")
        (some 1640390401) 5 =
      .ok [1640431800, 1640518200, 1640604600, 1640691000, 1640777400] ∧
    [1640431800, 1640518200, 1640604600, 1640691000, 1640777400] =
      List.map (fun t => t + 28800)
        [1640403000, 1640489400, 1640575800, 1640662200, 1640748600] := by
  constructor
  · decide
  · decide

/-- C10: with a non-wildcard hour field, the projector panics via the
local-time `unwrap` whenever a naively evaluated instant's wall-clock falls
in a DST gap or overlap of the target zone.  Cron "30 2 * 3 *" anchored at
2021-03-13T12:00:00Z hits the 2021-03-14 02:30 Los Angeles gap
(`from_local_datetime` yields no instant), and cron "30 1 * 11 *" anchored
at 2021-11-06T12:00:00Z hits the 2021-11-07 01:30 overlap (two instants). -/
theorem c10_dst_gap_overlap_panic :
    tz_cron_to_utc_datetimes laTz 0 (strChars "30 2 * 3 *")
        (some 1615636800) 1 = .panicLocal ∧
    laFromLocal 1615689000 = .nonexistent ∧
    tz_cron_to_utc_datetimes laTz 0 (strChars "30 1 * 11 *")
        (some 1636200000) 1 = .panicLocal ∧
    laFromLocal 1636248600 = .ambiguous 1636273800 1636277400 := by
  refine ⟨by decide, by decide, by decide, by decide⟩

/-- Does `l` start with `pre`?  Models Rust `str::starts_with`. -/
def startsWith : Str → Str → Bool
  | [], _ => true
  | _, [] => false
  | a :: p, b :: l => a = b && startsWith p l

/-- The substring after the last pipe character, as produced by splitting a
TSIK member on its final separator. -/
def afterLastPipe (l : Str) : Str :=
  (l.reverse.takeWhile (fun c => decide (c ≠ '|'))).reverse

/-- Embeds `BtuTaskSchedule` from the library's `task_schedule` module. -/
structure BtuTaskSchedule where
  id : Str
  task : Str
  task_description : Str
  enabled : Nat
  queue_name : Str
  redis_job_id : Str
  argument_overrides : Option Str
  schedule_description : Str
  cron_string : Str
  cron_timezone : Str
deriving DecidableEq, Repr

/-- Embeds `RQScheduledTask` from `scheduler.rs` (the redundant
`next_datetime_utc` field always carries the same instant as
`next_datetime_unix` and is dropped). -/
structure RQScheduledTask where
  task_schedule_id : Str
  next_datetime_unix : Int
deriving DecidableEq, Repr

/-- Embeds `RQScheduledTask::to_tsik`: the member "<schedule_id>|<unix_ts>". -/
def RQScheduledTask.to_tsik (t : RQScheduledTask) : Str :=
  t.task_schedule_id ++ '|' :: renderInt t.next_datetime_unix

/-- Embeds `RQJob` from `rq.rs`; `chrono` datetimes are carried as unix
seconds and the formatted heartbeat as an opaque string. -/
structure RQJob where
  job_key : Str
  job_key_short : Str
  created_at : Int
  data : List Nat
  description : Str
  ended_at : Option Str
  enqueued_at : Option Str
  exc_info : Option Str
  last_heartbeat : Str
  meta : Option (List Nat)
  origin : Str
  result_ttl : Option Str
  started_at : Option Str
  status : Option Str
  timeout : Nat
  worker_name : Str
deriving DecidableEq, Repr

/-- Embeds `RQJob::new_with_defaults`: the fresh UUID, the current instant,
and the formatted heartbeat are inputs of the pure model; `origin` starts as
the queue named "default" and `timeout` as 600 seconds. -/
def RQJob.new_with_defaults (uuid : Str) (now : Int) (heartbeat : Str) : RQJob :=
  { job_key := strChars "rq:job:" ++ uuid
    job_key_short := uuid
    created_at := now
    description := []
    data := []
    ended_at := none
    enqueued_at := none
    exc_info := none
    last_heartbeat := heartbeat
    meta := none
    origin := strChars "default"
    result_ttl := none
    started_at := none
    status := none
    timeout := 600
    worker_name := [] }

/-- Embeds `BtuTaskSchedule::to_rq_job` from the library: defaults, then the
schedule's task description and the pickled payload bytes.  A failed payload
fetch produces no job (the library panics, the scheduler propagates). -/
def BtuTaskSchedule.to_rq_job (ts : BtuTaskSchedule)
    (pickle : Except Str (List Nat)) (uuid : Str) (now : Int) (hb : Str) :
    Except Str RQJob :=
  match pickle with
  | .error e => .error e
  | .ok bytes =>
    .ok { RQJob.new_with_defaults uuid now hb with
          description := ts.task_description
          data := bytes }

/-- The Redis state the scheduler touches, plus the in-process FIFO: the
Due-Time Index sorted set (member, score), the job hashes, the worker-queue
lists, the queue registry set, and the InternalQueue. -/
structure DaemonState where
  index : List (Str × Int)
  jobs : List RQJob
  queues : List (Str × List Str)
  queueRegistry : List Str
  internalQueue : List Str
deriving DecidableEq, Repr

/-- Models Redis ZADD on the Due-Time Index: update the member's score or
append the new member. -/
def zadd (index : List (Str × Int)) (member : Str) (score : Int) :
    List (Str × Int) :=
  if index.any (fun p => decide (p.1 = member)) then
    index.map (fun p => if p.1 = member then (member, score) else p)
  else index ++ [(member, score)]

/-- Models the ZREM return value: 1 when the exact member was present. -/
def zrem_count (index : List (Str × Int)) (member : Str) : Nat :=
  if index.any (fun p => decide (p.1 = member)) then 1 else 0

/-- Models Redis SADD into the queue registry. -/
def sadd (registry : List Str) (key : Str) : List Str :=
  if key ∈ registry then registry else registry ++ [key]

/-- Models Redis RPUSH onto a worker-queue list. -/
def rpush (queues : List (Str × List Str)) (qkey : Str) (v : Str) :
    List (Str × List Str) :=
  if queues.any (fun q => decide (q.1 = qkey)) then
    queues.map (fun q => if q.1 = qkey then (q.1, q.2 ++ [v]) else q)
  else queues ++ [(qkey, [v])]

/-- Embeds `RQJob::save_to_redis`: HSET of the job hash. -/
def save_to_redis (job : RQJob) (st : DaemonState) : DaemonState :=
  { st with jobs := st.jobs ++ [job] }

/-- Embeds `read_job_by_id` from `rq.rs`: HGETALL of `rq:job:<id>`. -/
def read_job_by_id (jobs : List RQJob) (job_id : Str) : Option RQJob :=
  jobs.find? (fun j => decide (j.job_key = strChars "rq:job:" ++ job_id))

/-- Embeds `enqueue_job_immediate` from `rq.rs`: read the job hash, SADD its
queue key into `rq:queues`, then RPUSH the job id onto the queue list. -/
def enqueue_job_immediate (job_id : Str) (st : DaemonState) :
    DaemonState × Except Str Str :=
  match read_job_by_id st.jobs job_id with
  | none =>
    (st, .error (strChars "Job with key does not exist in the RQ database."))
  | some job =>
    let queue_key := strChars "rq:queue:" ++ job.origin
    let st1 := { st with queueRegistry := sadd st.queueRegistry queue_key }
    ({ st1 with queues := rpush st1.queues queue_key job_id },
      .ok (strChars "Enqueued job for immediate execution."))

/-- Embeds `add_task_schedule_to_rq` from `scheduler.rs`: the (not included)
`next_runtimes` computation is an input; no runtimes means no write, an
empty vector panics at the `[0]` index (result `none`), an unavailable Redis
connection returns silently, otherwise ZADD the TSIK member with the unix
timestamp as score. -/
def add_task_schedule_to_rq (next_runtimes : Option (List Int))
    (redisOk : Bool) (task_schedule : BtuTaskSchedule) (st : DaemonState) :
    Option DaemonState :=
  match next_runtimes with
  | none => some st
  | some [] => none
  | some (t :: _) =>
    let rq_scheduled_task : RQScheduledTask :=
      { task_schedule_id := task_schedule.id, next_datetime_unix := t }
    if redisOk = false then some st
    else
      some { st with
             index := zadd st.index rq_scheduled_task.to_tsik
               rq_scheduled_task.next_datetime_unix }

/-- The runner's environment: Redis availability, the schedule re-read from
MariaDB, the pickled-callable fetch, and the fresh UUID and clock values. -/
structure RunnerEnv where
  redisOk : Bool
  read_btu_task_schedule : Str → Option BtuTaskSchedule
  pickle : Except Str (List Nat)
  uuid : Str
  now : Int
  heartbeat : Str

/-- Embeds `run_immediate_scheduled_task` from `scheduler.rs`.  Step 0 ZREMs
the TSIK member; when the removal count is not 1 the Rust code only logs an
error and falls through.  An absent or disabled schedule returns an error;
otherwise the job is built, HSET, enqueued (enqueue errors are only logged),
and the schedule id is pushed back onto the InternalQueue. -/
def run_immediate_scheduled_task (env : RunnerEnv) (inst : RQScheduledTask)
    (st : DaemonState) : DaemonState × Except Str Unit :=
  if env.redisOk = false then (st, .ok ())
  else
    let member := inst.to_tsik
    let st0 := { st with index := st.index.filter (fun p => decide (p.1 ≠ member)) }
    match env.read_btu_task_schedule inst.task_schedule_id with
    | none =>
      (st0, .error (strChars "Unable to read Task Schedule from MariaDB database."))
    | some task_schedule =>
      if task_schedule.enabled = 0 then
        (st0, .error (strChars "Task Schedule is disabled in SQL database."))
      else
        match task_schedule.to_rq_job env.pickle env.uuid env.now env.heartbeat with
        | .error e => (st0, .error e)
        | .ok rq_job =>
          let st1 := save_to_redis rq_job st0
          let st2 := (enqueue_job_immediate rq_job.job_key_short st1).1
          ({ st2 with internalQueue := st2.internalQueue ++ [inst.task_schedule_id] },
            .ok ())

/-- Loop body of `rq_cancel_scheduled_task`: for each enumerated row whose
bare prefix matches, ZREM it; the Rust code sets `removed` when the ZREM
count was 0. -/
def cancelLoop : List Str → List (Str × Int) → Str → Bool →
    List (Str × Int) × Bool
  | [], index, _, removed => (index, removed)
  | row :: rest, index, id, removed =>
    if startsWith id row then
      let count := zrem_count index row
      let index' := index.filter (fun p => decide (p.1 ≠ row))
      cancelLoop rest index' id (if count = 0 then true else removed)
    else cancelLoop rest index id removed

/-- Embeds `rq_cancel_scheduled_task` from `scheduler.rs`: ZRANGE all
members, ZREM every row that starts with the given id, and answer from the
`removed` flag. -/
def rq_cancel_scheduled_task (index : List (Str × Int))
    (task_schedule_id : Str) : List (Str × Int) × Except Str Str :=
  let all_task_schedules := index.map Prod.fst
  let res := cancelLoop all_task_schedules index task_schedule_id false
  (res.1,
    if res.2 then .ok (strChars "Scheduled Task successfully removed from Redis Queue.")
    else .ok (strChars "Scheduled Task not found in Redis Queue."))

/-- The bytes written back on the UDS connection and whether the handler
returned an error. -/
structure IpcReply where
  reply : Str
  isErr : Bool
deriving DecidableEq, Repr

/-- Embeds the `cancel_task_schedule` arm of `handle_client_request` from
`ipc_stream.rs`: any `Ok` from the cancel call is answered with the
"Successfully cancelled" message, any `Err` with the error text. -/
def handle_cancel_task_schedule (index : List (Str × Int))
    (request_content : Str) : List (Str × Int) × IpcReply :=
  match rq_cancel_scheduled_task index request_content with
  | (index', .ok _) =>
    (index',
      { reply := strChars "Successfully cancelled BTU Task Schedule " ++
          request_content ++ strChars " in Python RQ."
        isErr := false })
  | (index', .error m) => (index', { reply := m, isErr := true })

theorem takeWhile_append_all {α} (p : α → Bool) (l₁ l₂ : List α)
    (h : ∀ c ∈ l₁, p c = true) :
    (l₁ ++ l₂).takeWhile p = l₁ ++ l₂.takeWhile p := by
  induction l₁ with
  | nil => rfl
  | cons c l ih =>
    have hc : p c = true := h c (List.mem_cons_self _ _)
    simp [List.takeWhile_cons, hc, ih (fun x hx => h x (List.mem_cons_of_mem _ hx))]

theorem find?_append_of_none {α} (p : α → Bool) (l₁ l₂ : List α)
    (h : l₁.find? p = none) : (l₁ ++ l₂).find? p = l₂.find? p := by
  induction l₁ with
  | nil => rfl
  | cons c l ih =>
    rw [List.find?_cons] at h
    rcases hc : p c with _ | _
    · rw [hc] at h
      rw [List.cons_append, List.find?_cons, hc]
      exact ih h
    · rw [hc] at h
      cases h

theorem renderInt_no_pipe (i : Int) : ∀ c ∈ renderInt i, c ≠ '|' := by
  intro c hc
  unfold renderInt at hc
  by_cases hneg : i < 0
  · rw [if_pos hneg] at hc
    rcases List.mem_cons.mp hc with h | h
    · subst h; decide
    · exact digit_ne_pipe (natDigits_all_digits i.natAbs c h)
  · rw [if_neg hneg] at hc
    exact digit_ne_pipe (natDigits_all_digits i.natAbs c hc)

theorem afterLastPipe_tsik (id : Str) (ts : Int) :
    afterLastPipe (id ++ '|' :: renderInt ts) = renderInt ts := by
  unfold afterLastPipe
  rw [List.reverse_append, List.reverse_cons]
  rw [List.append_assoc]
  rw [takeWhile_append_all _ _ _
    (fun c hc => by
      have := renderInt_no_pipe ts c (List.mem_reverse.mp hc)
      simpa using this)]
  rw [show List.takeWhile (fun c => decide (c ≠ '|')) (['|'] ++ id.reverse) = [] by
    simp [List.takeWhile_cons]]
  simp

theorem zadd_mem (index : List (Str × Int)) (m : Str) (sc : Int)
    (p : Str × Int) (hp : p ∈ zadd index m sc) :
    p ∈ index ∨ p = (m, sc) := by
  unfold zadd at hp
  by_cases hany : index.any (fun p => decide (p.1 = m)) = true
  · rw [if_pos hany] at hp
    obtain ⟨q, hq, hfq⟩ := List.mem_map.mp hp
    by_cases hqm : q.1 = m
    · right
      rw [if_pos hqm] at hfq
      exact hfq.symm
    · left
      rw [if_neg hqm] at hfq
      exact hfq ▸ hq
  · rw [if_neg hany] at hp
    rcases List.mem_append.mp hp with h | h
    · exact Or.inl h
    · exact Or.inr (List.mem_singleton.mp h)

/-- C5: every member the scheduler inserts into the Due-Time Index is the
concatenation "<schedule_id>|<unix_ts>" whose integer suffix after the last
pipe parses back to exactly the stored score; members already present are
untouched, so the invariant is preserved by every
`add_task_schedule_to_rq`. -/
theorem c5_due_time_index_invariant
    (next_runtimes : Option (List Int)) (redisOk : Bool)
    (task_schedule : BtuTaskSchedule) (st st' : DaemonState)
    (h : add_task_schedule_to_rq next_runtimes redisOk task_schedule st = some st')
    (p : Str × Int) (hp : p ∈ st'.index) :
    p ∈ st.index ∨
      (p.1 = task_schedule.id ++ '|' :: renderInt p.2 ∧
       parseIntStr (afterLastPipe p.1) = some p.2) := by
  match next_runtimes with
  | none =>
    rw [show add_task_schedule_to_rq none redisOk task_schedule st = some st from rfl] at h
    cases h
    exact Or.inl hp
  | some [] =>
    rw [show add_task_schedule_to_rq (some []) redisOk task_schedule st = none from rfl] at h
    cases h
  | some (t :: rest) =>
    by_cases hred : redisOk = false
    · rw [show add_task_schedule_to_rq (some (t :: rest)) redisOk task_schedule st
          = if redisOk = false then some st
            else some { st with
              index := zadd st.index
                (RQScheduledTask.to_tsik ⟨task_schedule.id, t⟩) t } from rfl,
        if_pos hred] at h
      cases h
      exact Or.inl hp
    · rw [show add_task_schedule_to_rq (some (t :: rest)) redisOk task_schedule st
          = if redisOk = false then some st
            else some { st with
              index := zadd st.index
                (RQScheduledTask.to_tsik ⟨task_schedule.id, t⟩) t } from rfl,
        if_neg hred] at h
      cases h
      rcases zadd_mem _ _ _ _ hp with hmem | heq
      · exact Or.inl hmem
      · right
        have h1 : p.1 = task_schedule.id ++ '|' :: renderInt t := by rw [heq]; rfl
        have h2 : p.2 = t := by rw [heq]
        refine ⟨by rw [h1, h2], ?_⟩
        rw [h1, h2, afterLastPipe_tsik, parseIntStr_renderInt]

/-- A concrete schedule used by several witnesses. -/
def schedS1 : BtuTaskSchedule :=
  { id := strChars "S1"
    task := strChars "T1"
    task_description := strChars "demo task"
    enabled := 1
    queue_name := strChars "default"
    redis_job_id := []
    argument_overrides := none
    schedule_description := []
    cron_string := strChars "*/5 * * * *"
    cron_timezone := strChars "UTC" }

/-- The empty daemon state. -/
def emptyState : DaemonState :=
  { index := [], jobs := [], queues := [], queueRegistry := [], internalQueue := [] }

/-- Witness for C5 at a concrete insertion into an empty index. -/
theorem c5_witness :
    add_task_schedule_to_rq (some [100]) true schedS1 emptyState =
      some { emptyState with index := [(strChars "S1|100", 100)] } ∧
    ((strChars "S1|100", (100 : Int)) ∈ emptyState.index ∨
      ((strChars "S1|100" : Str) = schedS1.id ++ '|' :: renderInt 100 ∧
       parseIntStr (afterLastPipe (strChars "S1|100")) = some 100)) :=
  ⟨by decide,
    c5_due_time_index_invariant (some [100]) true schedS1 emptyState
      { emptyState with index := [(strChars "S1|100", 100)] } (by decide)
      (strChars "S1|100", 100) (by decide)⟩

theorem filter_congr_mem {α} (p q : α → Bool) (l : List α)
    (h : ∀ x ∈ l, p x = q x) : l.filter p = l.filter q := by
  induction l with
  | nil => rfl
  | cons a l ih =>
    rw [List.filter_cons, List.filter_cons, h a (List.mem_cons_self _ _),
      ih (fun x hx => h x (List.mem_cons_of_mem _ hx))]

theorem filter_filter_own {α} (p q : α → Bool) (l : List α) :
    (l.filter p).filter q = l.filter (fun a => p a && q a) := by
  induction l with
  | nil => rfl
  | cons a l ih =>
    by_cases hp : p a = true <;> by_cases hq : q a = true <;>
      simp [List.filter_cons, hp, hq, ih]

/-- The job the runner builds at dispatch time: defaults overridden with the
schedule's task description and the fetched payload. -/
def jobOf (env : RunnerEnv) (sched : BtuTaskSchedule) (bytes : List Nat) : RQJob :=
  { RQJob.new_with_defaults env.uuid env.now env.heartbeat with
    description := sched.task_description
    data := bytes }

theorem run_immediate_dispatch (env : RunnerEnv) (inst : RQScheduledTask)
    (st : DaemonState) (sched : BtuTaskSchedule) (bytes : List Nat)
    (hredis : env.redisOk = true)
    (hdb : env.read_btu_task_schedule inst.task_schedule_id = some sched)
    (hen : ¬sched.enabled = 0)
    (hpk : env.pickle = .ok bytes)
    (hfresh : ∀ j ∈ st.jobs, j.job_key ≠ strChars "rq:job:" ++ env.uuid) :
    run_immediate_scheduled_task env inst st =
      ({ index := st.index.filter (fun p => decide (p.1 ≠ inst.to_tsik))
         jobs := st.jobs ++ [jobOf env sched bytes]
         queues := rpush st.queues (strChars "rq:queue:" ++ strChars "default") env.uuid
         queueRegistry := sadd st.queueRegistry (strChars "rq:queue:" ++ strChars "default")
         internalQueue := st.internalQueue ++ [inst.task_schedule_id] },
        .ok ()) := by
  have hnone : st.jobs.find?
      (fun j => decide (j.job_key = strChars "rq:job:" ++ env.uuid)) = none := by
    apply List.find?_eq_none.mpr
    intro j hj
    simpa using hfresh j hj
  have happ := find?_append_of_none
    (fun j => decide (j.job_key = strChars "rq:job:" ++ env.uuid))
    st.jobs [jobOf env sched bytes] hnone
  have hsingle : [jobOf env sched bytes].find?
      (fun j => decide (j.job_key = strChars "rq:job:" ++ env.uuid))
      = some (jobOf env sched bytes) := by
    simp [List.find?_cons, jobOf, RQJob.new_with_defaults]
  simp only [run_immediate_scheduled_task, hredis, hdb, hen, hpk,
    BtuTaskSchedule.to_rq_job, save_to_redis, enqueue_job_immediate,
    read_job_by_id, jobOf, RQJob.new_with_defaults] at happ hsingle ⊢
  simp [happ, hsingle, jobOf, RQJob.new_with_defaults]

/-- C1 (amended): when ZREM removes zero members (the firing was already
claimed elsewhere), `run_immediate_scheduled_task` merely logs: it still
builds the JobRecord, still pushes onto the worker queue, and still
re-enqueues the schedule id onto the InternalQueue. -/
theorem c1_runner_continues_after_failed_zrem (env : RunnerEnv)
    (inst : RQScheduledTask) (st : DaemonState) (sched : BtuTaskSchedule)
    (bytes : List Nat)
    (hzrem : zrem_count st.index inst.to_tsik = 0)
    (hredis : env.redisOk = true)
    (hdb : env.read_btu_task_schedule inst.task_schedule_id = some sched)
    (hen : ¬sched.enabled = 0)
    (hpk : env.pickle = .ok bytes)
    (hfresh : ∀ j ∈ st.jobs, j.job_key ≠ strChars "rq:job:" ++ env.uuid) :
    (run_immediate_scheduled_task env inst st).2 = .ok () ∧
    (run_immediate_scheduled_task env inst st).1.jobs =
      st.jobs ++ [jobOf env sched bytes] ∧
    (run_immediate_scheduled_task env inst st).1.queues =
      rpush st.queues (strChars "rq:queue:" ++ strChars "default") env.uuid ∧
    (run_immediate_scheduled_task env inst st).1.internalQueue =
      st.internalQueue ++ [inst.task_schedule_id] := by
  rw [run_immediate_dispatch env inst st sched bytes hredis hdb hen hpk hfresh]
  exact ⟨rfl, rfl, rfl, rfl⟩

/-- The runner environment used by the C1 counterexample: Redis reachable,
schedule "S1" enabled in the store, payload fetch succeeding. -/
def envS1 : RunnerEnv :=
  { redisOk := true
    read_btu_task_schedule := fun i => if i = strChars "S1" then some schedS1 else none
    pickle := .ok [1, 2, 3]
    uuid := strChars "job-uuid-1"
    now := 0
    heartbeat := strChars "hb" }

/-- Counterexample for C1: with an empty Due-Time Index the ZREM of
"S1|100" removes zero members, yet the runner creates a JobRecord, pushes
onto a worker queue, re-enqueues "S1" onto the InternalQueue, and returns
Ok — the iteration is not skipped. -/
theorem c1_counterexample :
    zrem_count emptyState.index (RQScheduledTask.to_tsik ⟨strChars "S1", 100⟩) = 0 ∧
    (run_immediate_scheduled_task envS1 ⟨strChars "S1", 100⟩ emptyState).1.jobs ≠ [] ∧
    (run_immediate_scheduled_task envS1 ⟨strChars "S1", 100⟩ emptyState).1.queues ≠ [] ∧
    (run_immediate_scheduled_task envS1 ⟨strChars "S1", 100⟩ emptyState).1.internalQueue
      = [strChars "S1"] ∧
    (run_immediate_scheduled_task envS1 ⟨strChars "S1", 100⟩ emptyState).2 = .ok () :=
  ⟨rfl, by decide, by decide, rfl, rfl⟩

/-- Witness for C1 at the counterexample's input. -/
theorem c1_witness :
    zrem_count emptyState.index (RQScheduledTask.to_tsik ⟨strChars "S1", 100⟩) = 0 ∧
    (run_immediate_scheduled_task envS1 ⟨strChars "S1", 100⟩ emptyState).1.internalQueue =
      emptyState.internalQueue ++ [strChars "S1"] :=
  ⟨rfl,
    (c1_runner_continues_after_failed_zrem envS1 ⟨strChars "S1", 100⟩ emptyState
      schedS1 [1, 2, 3] rfl rfl (by decide) (by decide) rfl
      (by intro j hj; simp [emptyState] at hj)).2.2.2⟩

/-- C7: when the re-read schedule is absent, or present but disabled, the
runner returns an error and neither creates a JobRecord, nor pushes onto
any worker queue or the queue registry, nor re-enqueues the schedule id. -/
theorem c7_skip_absent_or_disabled (env : RunnerEnv) (inst : RQScheduledTask)
    (st : DaemonState)
    (hredis : env.redisOk = true)
    (habs : env.read_btu_task_schedule inst.task_schedule_id = none ∨
      ∃ sched, env.read_btu_task_schedule inst.task_schedule_id = some sched ∧
        sched.enabled = 0) :
    (∃ msg, (run_immediate_scheduled_task env inst st).2 = .error msg) ∧
    (run_immediate_scheduled_task env inst st).1.jobs = st.jobs ∧
    (run_immediate_scheduled_task env inst st).1.queues = st.queues ∧
    (run_immediate_scheduled_task env inst st).1.queueRegistry = st.queueRegistry ∧
    (run_immediate_scheduled_task env inst st).1.internalQueue = st.internalQueue := by
  rcases habs with hnone | ⟨sched, hdb, hen⟩
  · refine ⟨⟨strChars "Unable to read Task Schedule from MariaDB database.", ?_⟩,
      ?_, ?_, ?_, ?_⟩ <;>
      simp [run_immediate_scheduled_task, hredis, hnone]
  · refine ⟨⟨strChars "Task Schedule is disabled in SQL database.", ?_⟩,
      ?_, ?_, ?_, ?_⟩ <;>
      simp [run_immediate_scheduled_task, hredis, hdb, hen]

/-- The runner environment whose store lookup finds no schedule. -/
def envAbsent : RunnerEnv :=
  { envS1 with read_btu_task_schedule := fun _ => none }

/-- Witness for C7 with an absent schedule. -/
theorem c7_witness :
    (∃ msg, (run_immediate_scheduled_task envAbsent ⟨strChars "S1", 100⟩
      emptyState).2 = .error msg) ∧
    (run_immediate_scheduled_task envAbsent ⟨strChars "S1", 100⟩
      emptyState).1.jobs = emptyState.jobs ∧
    (run_immediate_scheduled_task envAbsent ⟨strChars "S1", 100⟩
      emptyState).1.internalQueue = emptyState.internalQueue :=
  ⟨(c7_skip_absent_or_disabled envAbsent ⟨strChars "S1", 100⟩ emptyState rfl
      (Or.inl rfl)).1,
   (c7_skip_absent_or_disabled envAbsent ⟨strChars "S1", 100⟩ emptyState rfl
      (Or.inl rfl)).2.1,
   (c7_skip_absent_or_disabled envAbsent ⟨strChars "S1", 100⟩ emptyState rfl
      (Or.inl rfl)).2.2.2.2⟩

/-- A schedule targeting a non-default queue, for C4. -/
def schedS2 : BtuTaskSchedule :=
  { schedS1 with id := strChars "S2", queue_name := strChars "special" }

/-- The runner environment serving `schedS2`. -/
def envS2 : RunnerEnv :=
  { envS1 with
    read_btu_task_schedule := fun i => if i = strChars "S2" then some schedS2 else none }

/-- A state holding the ripe member "S2|100". -/
def stS2 : DaemonState := { emptyState with index := [(strChars "S2|100", 100)] }

/-- Counterexample for C4: the schedule's queue_name is "special", yet the
dispatched JobRecord carries origin "default" and timeout 600 — the
schedule's queue and the task's max duration are never consulted. -/
theorem c4_counterexample :
    ((run_immediate_scheduled_task envS2 ⟨strChars "S2", 100⟩ stS2).1.jobs.map
      (fun j => j.origin)) = [strChars "default"] ∧
    ((run_immediate_scheduled_task envS2 ⟨strChars "S2", 100⟩ stS2).1.jobs.map
      (fun j => j.timeout)) = [600] ∧
    schedS2.queue_name ≠ strChars "default" :=
  ⟨rfl, rfl, by decide⟩

/-- C4 (amended): every JobRecord the runner dispatches has origin equal to
the literal "default" and timeout equal to the literal 600 — the values of
`RQJob::new_with_defaults` — for every schedule and store contents. -/
theorem c4_job_origin_timeout_defaults (env : RunnerEnv)
    (inst : RQScheduledTask) (st : DaemonState) (sched : BtuTaskSchedule)
    (bytes : List Nat)
    (hredis : env.redisOk = true)
    (hdb : env.read_btu_task_schedule inst.task_schedule_id = some sched)
    (hen : ¬sched.enabled = 0)
    (hpk : env.pickle = .ok bytes)
    (hfresh : ∀ j ∈ st.jobs, j.job_key ≠ strChars "rq:job:" ++ env.uuid) :
    (run_immediate_scheduled_task env inst st).1.jobs =
      st.jobs ++ [jobOf env sched bytes] ∧
    (jobOf env sched bytes).origin = strChars "default" ∧
    (jobOf env sched bytes).timeout = 600 := by
  rw [run_immediate_dispatch env inst st sched bytes hredis hdb hen hpk hfresh]
  exact ⟨rfl, rfl, rfl⟩

/-- Witness for C4 at the "special" queue schedule. -/
theorem c4_witness :
    (run_immediate_scheduled_task envS2 ⟨strChars "S2", 100⟩ stS2).1.jobs =
      stS2.jobs ++ [jobOf envS2 schedS2 [1, 2, 3]] ∧
    (jobOf envS2 schedS2 [1, 2, 3]).origin = strChars "default" :=
  ⟨(c4_job_origin_timeout_defaults envS2 ⟨strChars "S2", 100⟩ stS2 schedS2
      [1, 2, 3] rfl (by decide) (by decide) rfl
      (by intro j hj; simp [stS2, emptyState] at hj)).1,
   (c4_job_origin_timeout_defaults envS2 ⟨strChars "S2", 100⟩ stS2 schedS2
      [1, 2, 3] rfl (by decide) (by decide) rfl
      (by intro j hj; simp [stS2, emptyState] at hj)).2.1⟩

theorem cancelLoop_spec (id : Str) (rows : List Str)
    (index : List (Str × Int)) (removed : Bool)
    (hnd : rows.Nodup) (hmem : ∀ r ∈ rows, r ∈ index.map Prod.fst) :
    cancelLoop rows index id removed =
      (index.filter (fun p => !(startsWith id p.1 && decide (p.1 ∈ rows))),
        removed) := by
  induction rows generalizing index with
  | nil =>
    simp [cancelLoop]
  | cons r rest ih =>
    obtain ⟨hr_not, hnd'⟩ := List.nodup_cons.mp hnd
    have hrmem : r ∈ index.map Prod.fst := hmem r (List.mem_cons_self _ _)
    by_cases hsw : startsWith id r = true
    · have hany : index.any (fun p => decide (p.1 = r)) = true := by
        rw [List.any_eq_true]
        obtain ⟨q, hq, hq1⟩ := List.mem_map.mp hrmem
        exact ⟨q, hq, by simp [hq1]⟩
      have hz : zrem_count index r = 1 := by simp [zrem_count, hany]
      rw [show cancelLoop (r :: rest) index id removed =
          cancelLoop rest (index.filter (fun p => decide (p.1 ≠ r))) id
            (if zrem_count index r = 0 then true else removed) from by
        simp [cancelLoop, hsw]]
      rw [hz]
      rw [if_neg (by omega)]
      have hmem' : ∀ x ∈ rest,
          x ∈ (index.filter (fun p => decide (p.1 ≠ r))).map Prod.fst := by
        intro x hx
        obtain ⟨q, hq, hq1⟩ := List.mem_map.mp (hmem x (List.mem_cons_of_mem _ hx))
        refine List.mem_map.mpr ⟨q, List.mem_filter.mpr ⟨hq, ?_⟩, hq1⟩
        have hxr : x ≠ r := fun hxr => hr_not (hxr ▸ hx)
        simp [hq1, hxr]
      rw [ih _ hnd' hmem']
      congr 1
      rw [filter_filter_own]
      have hpred : ∀ a : Str × Int,
          (decide (a.1 ≠ r) && !(startsWith id a.1 && decide (a.1 ∈ rest)))
          = !(startsWith id a.1 && decide (a.1 ∈ r :: rest)) := by
        intro a
        by_cases har : a.1 = r
        · simp [har, hsw]
        · simp [har, List.mem_cons]
      exact filter_congr_mem _ _ index (fun a _ => hpred a)
    · rw [show cancelLoop (r :: rest) index id removed =
          cancelLoop rest index id removed from by simp [cancelLoop, hsw]]
      rw [ih _ hnd' (fun x hx => hmem x (List.mem_cons_of_mem _ hx))]
      congr 1
      have hpred : ∀ a : Str × Int,
          (!(startsWith id a.1 && decide (a.1 ∈ rest)))
          = !(startsWith id a.1 && decide (a.1 ∈ r :: rest)) := by
        intro a
        by_cases har : a.1 = r
        · rw [har]
          simp [hsw]
        · simp [har, List.mem_cons]
      exact filter_congr_mem _ _ index (fun a _ => hpred a)

/-- C2 (amended): cancelling schedule id s removes exactly the members whose
BARE prefix is s — the pipe is not part of the test — so members of any
distinct schedule id of which s is a proper prefix (such as "S10|..." when
cancelling "S1") are removed too; and because a successful ZREM returns 1,
the `removed` flag is never set, so the call always answers with the
not-found message. -/
theorem c2_cancel_removes_by_bare_id (index : List (Str × Int)) (id : Str)
    (hnd : (index.map Prod.fst).Nodup) :
    (rq_cancel_scheduled_task index id).1 =
      index.filter (fun p => !(startsWith id p.1)) ∧
    (rq_cancel_scheduled_task index id).2 =
      .ok (strChars "Scheduled Task not found in Redis Queue.") := by
  unfold rq_cancel_scheduled_task
  dsimp only
  rw [cancelLoop_spec id (index.map Prod.fst) index false hnd (fun r hr => hr)]
  constructor
  · dsimp only
    apply filter_congr_mem
    intro a ha
    have : a.1 ∈ index.map Prod.fst := List.mem_map.mpr ⟨a, ha, rfl⟩
    simp [this]
  · rfl

/-- Counterexample for C2: with the Due-Time Index holding only "S10|100",
cancelling "S1" removes it, even though "S10|100" does not start with the
pipe-terminated prefix "S1|". -/
theorem c2_counterexample :
    (rq_cancel_scheduled_task [(strChars "S10|100", 100)] (strChars "S1")).1 = [] ∧
    startsWith (strChars "S1" ++ '|' :: []) (strChars "S10|100") = false :=
  ⟨rfl, rfl⟩

/-- Witness for C2 at the counterexample's index. -/
theorem c2_witness :
    (([(strChars "S10|100", (100 : Int))].map Prod.fst).Nodup) ∧
    (rq_cancel_scheduled_task [(strChars "S10|100", 100)] (strChars "S1")).1 =
      [(strChars "S10|100", (100 : Int))].filter
        (fun p => !(startsWith (strChars "S1") p.1)) :=
  ⟨by decide,
    (c2_cancel_removes_by_bare_id [(strChars "S10|100", 100)] (strChars "S1")
      (by decide)).1⟩

/-- C3 (code bug): the `removed` flag of `rq_cancel_scheduled_task` is set
only when ZREM returns 0, so after actually finding and removing "S1|100"
the function reports "Scheduled Task not found in Redis Queue."; and the
IPC handler answers "Successfully cancelled ..." for every Ok — including
when the index held no matching member at all. -/
theorem c3_cancel_reply_always_success :
    (rq_cancel_scheduled_task [(strChars "S1|100", 100)] (strChars "S1")).1 = [] ∧
    (rq_cancel_scheduled_task [(strChars "S1|100", 100)] (strChars "S1")).2 =
      .ok (strChars "Scheduled Task not found in Redis Queue.") ∧
    (handle_cancel_task_schedule [(strChars "S1|100", 100)] (strChars "S1")).2 =
      { reply := strChars "Successfully cancelled BTU Task Schedule " ++
          strChars "S1" ++ strChars " in Python RQ."
        isErr := false } ∧
    (handle_cancel_task_schedule [] (strChars "S1")).2 =
      { reply := strChars "Successfully cancelled BTU Task Schedule " ++
          strChars "S1" ++ strChars " in Python RQ."
        isErr := false } :=
  ⟨rfl, rfl, rfl, rfl⟩

end BTU
